import Mathlib

/-!
# Verification of the yt-trend data pipeline (`app.py`)

Shallow embedding of the data-collection and metric-derivation pipeline of
`app.py`:

* `youtube_search` — paginated search collector (pages of ≤ 50, dedup via
  `dict.fromkeys`);
* `youtube_videos_stats` — chunked (≤ 50) details aggregator with
  engagement-rate column;
* `tokenize` / `keywords_from_df` — keyword extraction (regex token runs,
  stopword and length filtering, `Counter.most_common`);
* `yt_get` — credential check and parameter-dictionary handling.

Network I/O is modelled by response oracles: a search oracle maps a request
index and the actual request parameters to the JSON payload of that page, and
a details oracle maps a chunk index and the requested ids to the returned
items.  The missing-credential `RuntimeError` of `yt_get` is modelled with
`Except`; machine integers are `Nat`/`Int`, the float engagement rate is
modelled exactly over `ℚ` with NumPy's round-half-to-even.
-/

namespace YtTrend

/-- Python truthiness of an optional string (`None` and `""` are falsy):
used for `if region_code:` and `if next_page_token:` in `app.py`. -/
def strTruthy : Option String → Bool
  | none => false
  | some s => decide (s ≠ "")

/-- `item.get("id", {}).get("videoId")` followed by the `if vid:` truthiness
test of `app.py` line 128: a missing or empty `videoId` yields nothing. -/
def extractVid : Option String → Option String
  | none => none
  | some v => if v = "" then none else some v

/-- The query parameters sent to the `search` endpoint
(`query_params` of `app.py` lines 106–121). -/
structure SearchReq where
  q : String
  publishedAfter : String
  publishedBefore : String
  maxResults : Nat
  regionCode : Option String
  pageToken : Option String
deriving DecidableEq

/-- One page of the `search` endpoint response: the (possibly absent)
`id.videoId` of each item, and the optional `nextPageToken`. -/
structure SearchPage where
  items : List (Option String)
  nextPageToken : Option String

/-- The error raised by `yt_get` when `API_KEY` is empty
(`app.py` lines 69–74). -/
inductive ConfigError where
  | missingKey
deriving DecidableEq

/-- Order-preserving deduplication, `list(dict.fromkeys(ids))` of `app.py`
line 139: scan left to right, keeping an id only when it has not been seen. -/
def dedupFirstAux (seen : List String) : List String → List String
  | [] => []
  | x :: xs =>
    if x ∈ seen then dedupFirstAux seen xs
    else x :: dedupFirstAux (seen ++ [x]) xs

/-- `list(dict.fromkeys(ids))`: first-occurrence-order deduplication. -/
def dedupFirst (l : List String) : List String := dedupFirstAux [] l

/-- The `query_params` dictionary of `app.py` lines 106–121: `regionCode`
is included only when `region_code` is truthy (nonempty), and `pageToken`
only when `next_page_token` is truthy. -/
def mkSearchReq (keyword publishedAfter publishedBefore regionCode : String)
    (pageSize : Nat) (tok : Option String) : SearchReq :=
  { q := keyword
    publishedAfter := publishedAfter
    publishedBefore := publishedBefore
    maxResults := pageSize
    regionCode := if regionCode = "" then none else some regionCode
    pageToken := if strTruthy tok then tok else none }

/-- The `while fetched < max_results` pagination loop of `youtube_search`
(`app.py` lines 103–136).  `api` is the search-endpoint oracle (request
index ↦ request parameters ↦ response page); each iteration first performs
the `yt_get` credential check, then issues one request with page size
`min(50, max_results - fetched)`.  Returns the collected (not yet
deduplicated) id list together with the number of requests issued. -/
def searchLoop (apiKey : String) (api : Nat → SearchReq → SearchPage)
    (keyword publishedAfter publishedBefore regionCode : String)
    (maxResults : Nat) (k fetched : Nat) (tok : Option String)
    (ids : List String) : Except ConfigError (List String) × Nat :=
  if h : fetched < maxResults then
    if apiKey = "" then (Except.error ConfigError.missingKey, k)
    else
      let page := api k (mkSearchReq keyword publishedAfter publishedBefore
        regionCode (min 50 (maxResults - fetched)) tok)
      if h2 : strTruthy page.nextPageToken = false ∨ page.items.length = 0 then
        (Except.ok (ids ++ page.items.filterMap extractVid), k + 1)
      else
        searchLoop apiKey api keyword publishedAfter publishedBefore
          regionCode maxResults (k + 1) (fetched + page.items.length)
          page.nextPageToken (ids ++ page.items.filterMap extractVid)
  else (Except.ok ids, k)
termination_by maxResults - fetched
decreasing_by
  simp only [not_or, page] at h2
  omega

/-- `youtube_search` of `app.py` lines 89–139: run the pagination loop from
an empty state and deduplicate the collected ids with `dict.fromkeys`.
The second component is the number of search requests issued. -/
def youtube_search (apiKey : String) (api : Nat → SearchReq → SearchPage)
    (keyword publishedAfter publishedBefore regionCode : String)
    (maxResults : Nat) : Except ConfigError (List String) × Nat :=
  match searchLoop apiKey api keyword publishedAfter publishedBefore
      regionCode maxResults 0 0 none [] with
  | (Except.ok ids, k) => (Except.ok (dedupFirst ids), k)
  | (Except.error e, k) => (Except.error e, k)

/-- One item of a `videos` endpoint response (`data["items"]` of
`youtube_videos_stats`): the optional `id`, the optional `snippet` string
fields, and the optional `statistics` counters (already parsed to `Nat`;
the Python `int(stats.get(..., 0) or 0)` turns an absent, `None` or empty
field into 0, modelled by `Option Nat` with default 0). -/
structure VItem where
  id : Option String
  title : Option String
  description : Option String
  channelTitle : Option String
  publishedAt : Option String
  viewCount : Option Nat
  likeCount : Option Nat
  commentCount : Option Nat
deriving DecidableEq

/-- One row of the DataFrame built by `youtube_videos_stats`
(`app.py` lines 166–175), before the `ER(%)` column is added. -/
structure Row where
  videoId : Option String
  title : String
  description : String
  channelTitle : String
  publishedAt : String
  viewCount : Nat
  likeCount : Nat
  commentCount : Nat
deriving DecidableEq

/-- The row-building dictionary of `app.py` lines 166–175: snippet fields
default to `""`, statistics fields default to `0`. -/
def buildRow (it : VItem) : Row :=
  { videoId := it.id
    title := it.title.getD ""
    description := it.description.getD ""
    channelTitle := it.channelTitle.getD ""
    publishedAt := it.publishedAt.getD ""
    viewCount := it.viewCount.getD 0
    likeCount := it.likeCount.getD 0
    commentCount := it.commentCount.getD 0 }

/-- The chunking `for i in range(0, len(video_ids), 50)` of `app.py`
line 152: successive slices `video_ids[i:i+50]`. -/
def chunk50 : List String → List (List String)
  | [] => []
  | x :: xs => ((x :: xs).take 50) :: chunk50 ((x :: xs).drop 50)
termination_by l => l.length
decreasing_by
  simp [List.length_drop]
  omega

/-- The chunk loop of `youtube_videos_stats` (`app.py` lines 152–176):
for each chunk, `yt_get` first checks the credential, then the details
oracle `api` (chunk index ↦ requested ids ↦ returned items) answers, and
one row per returned item is appended.  Returns the rows and the number of
requests issued. -/
def statsLoop (apiKey : String) (api : Nat → List String → List VItem) :
    List (List String) → Nat → List Row → Except ConfigError (List Row) × Nat
  | [], j, acc => (Except.ok acc, j)
  | chunk :: rest, j, acc =>
    if apiKey = "" then (Except.error ConfigError.missingKey, j)
    else statsLoop apiKey api rest (j + 1) (acc ++ (api j chunk).map buildRow)

/-- NumPy's round-half-to-even of a rational to the nearest integer
(the rounding used by `ndarray.round`). -/
def roundHalfEven (q : ℚ) : ℤ :=
  if q - ⌊q⌋ < 1 / 2 then ⌊q⌋
  else if 1 / 2 < q - ⌊q⌋ then ⌊q⌋ + 1
  else if Even ⌊q⌋ then ⌊q⌋ else ⌊q⌋ + 1

/-- `.round(3)`: round to 3 decimal places (half to even), exactly over ℚ. -/
def round3 (q : ℚ) : ℚ := (roundHalfEven (q * 1000) : ℚ) / 1000

/-- A row of the final DataFrame, with the derived `ER(%)` column. -/
structure RowER extends Row where
  er : ℚ
deriving DecidableEq

/-- The `ER(%)` computation of `app.py` lines 185–189:
`np.where(view > 0, (like + comment) / view * 100.0, 0.0).round(3)`,
modelled exactly over ℚ. -/
def addER (r : Row) : RowER :=
  { r with
    er := round3 (if 0 < r.viewCount then
      ((r.likeCount : ℚ) + (r.commentCount : ℚ)) / (r.viewCount : ℚ) * 100
      else 0) }

/-- `youtube_videos_stats` of `app.py` lines 142–191: chunk the ids, run the
request loop, and (on success) add the `ER(%)` column to every row (when
the DataFrame is empty, mapping over the empty row list is the identity,
matching the `if not df.empty` guard).  The second component is the number
of details requests issued. -/
def youtube_videos_stats (apiKey : String)
    (api : Nat → List String → List VItem) (videoIds : List String) :
    Except ConfigError (List RowER) × Nat :=
  match statsLoop apiKey api (chunk50 videoIds) 0 [] with
  | (Except.ok rows, j) => (Except.ok (rows.map addER), j)
  | (Except.error e, j) => (Except.error e, j)

/-- The `videoId` column of a `youtube_videos_stats` result (empty on
error): the ids appearing in the aggregator's output. -/
def outputIds : Except ConfigError (List RowER) → List String
  | Except.ok rows => rows.filterMap (fun r => r.videoId)
  | Except.error _ => []

/-- The character class of `TOKEN_PATTERN = re.compile(r"[A-Za-z가-힣]+")`
(`app.py` line 41): Latin letters and Hangul syllables. -/
def tokenChar (c : Char) : Bool :=
  decide (('A' ≤ c ∧ c ≤ 'Z') ∨ ('a' ≤ c ∧ c ≤ 'z') ∨ ('가' ≤ c ∧ c ≤ '힣'))

/-- `TOKEN_PATTERN.findall`: the maximal runs of `tokenChar` characters, in
order.  `acc` holds the (reversed) characters of the run in progress. -/
def findallTokens : List Char → List Char → List String
  | [], acc => if acc.isEmpty then [] else [String.mk acc.reverse]
  | c :: cs, acc =>
    if tokenChar c then findallTokens cs (c :: acc)
    else if acc.isEmpty then findallTokens cs []
    else String.mk acc.reverse :: findallTokens cs []

/-- `text.lower()`, character by character (`Char.toLower` lower-cases the
ASCII letters; Hangul syllables have no case). -/
def strLower (s : String) : String := String.mk (s.toList.map Char.toLower)

/-- `DEFAULT_STOPWORDS` of `app.py` lines 29–38. -/
def DEFAULT_STOPWORDS : List String :=
  ["영상", "동영상", "브이로그", "vlog",
   "the", "a", "to", "of", "in", "on", "for", "and", "is", "are", "with", "from",
   "한", "것", "수", "이", "그", "저", "및", "등", "때", "때문",
   "오늘", "하루", "일상",
   "채널", "유튜브", "youtube",
   "shorts", "short",
   "공식", "official", "full",
   "2023", "2024", "2025"]

/-- `tokenize` of `app.py` lines 197–206: find the token runs of the
lower-cased text, then keep tokens that are not stopwords and have at
least 2 characters. -/
def tokenize (text : String) : List String :=
  (findallTokens (strLower text).toList []).filter
    (fun t => decide (t ∉ DEFAULT_STOPWORDS) && decide (2 ≤ t.length))

/-- A record as read by `keywords_from_df`: only the `title` and
`description` columns are consulted (`row.get`, defaulting handled by the
DataFrame construction). -/
structure TextRow where
  title : String
  description : String
deriving DecidableEq

/-- The corpus built by `keywords_from_df` (`app.py` lines 214–218):
tokens of `f"{title} {description}"` accumulated over all rows. -/
def corpusOf (rows : List TextRow) : List String :=
  rows.flatMap (fun r => tokenize (r.title ++ " " ++ r.description))

/-- The comparator of `Counter.most_common`: sort by count, descending
(`sorted(..., key=itemgetter(1), reverse=True)`): `p` may come before `q`
exactly when `q`'s count is at most `p`'s. -/
def mostCommonLE (p q : String × Nat) : Bool := decide (q.2 ≤ p.2)

/-- `Counter(corpus).most_common(topn)`: count each distinct token
(distinct tokens in first-appearance = insertion order), sort by count
descending with a stable sort (CPython's `sorted`/`heapq.nlargest` are
stable, so ties keep insertion order), and take the first `topn`. -/
def mostCommon (topn : Nat) (corpus : List String) : List (String × Nat) :=
  ((((dedupFirst corpus).map
    (fun k => (k, corpus.count k))).mergeSort mostCommonLE)).take topn

/-- `keywords_from_df` of `app.py` lines 209–221. -/
def keywords_from_df (rows : List TextRow) (topn : Nat) :
    List (String × Nat) :=
  mostCommon topn (corpusOf rows)

/-- A Python dictionary value (string keys and values, insertion order). -/
abbrev Dict := List (String × String)

/-- Python dictionary item assignment `d[k] = v`: overwrite in place when
the key exists, append otherwise. -/
def dictSet (d : Dict) (k v : String) : Dict :=
  if k ∈ d.map Prod.fst then d.map (fun p => if p.1 = k then (k, v) else p)
  else d ++ [(k, v)]

/-- The parameter handling of `yt_get` (`app.py` lines 76–77), over an
explicit object store so that mutation and aliasing are observable: the
store is a list of dictionary objects and `params` is a reference (index)
into it.  `final_params = dict(params)` allocates a fresh copy at a fresh
reference, and `final_params["key"] = API_KEY` mutates that copy in place.
Returns the updated store and the reference to `final_params`. -/
def yt_get_params (store : List Dict) (params : Nat) (apiKey : String) :
    List Dict × Nat :=
  let copied := store.getD params []
  let store1 := store ++ [copied]
  let finalRef := store.length
  let store2 := store1.set finalRef
    (dictSet (store1.getD finalRef []) "key" apiKey)
  (store2, finalRef)

/-- Demo search oracle: answers three items (with one repeat) and no
continuation token, as long as at least 3 results were requested. -/
def threeItemApi : Nat → SearchReq → SearchPage := fun _ req =>
  if req.maxResults < 3 then ⟨[], none⟩
  else ⟨[some "a", some "b", some "a"], none⟩

/-- Demo search oracle: every page has a single item and a continuation
token (a partial page, as the real endpoint may produce). -/
def onePerPageApi : Nat → SearchReq → SearchPage := fun _ _ =>
  ⟨[some "a"], some "t"⟩

/-- Demo search oracle: always an empty page without continuation token. -/
def emptyPageApi : Nat → SearchReq → SearchPage := fun _ _ => ⟨[], none⟩

/-- Demo details oracle: answers an item whose id was never requested. -/
def foreignIdApi : Nat → List String → List VItem := fun _ _ =>
  [⟨some "zz", none, none, none, none, none, none, none⟩]

/-- Demo details item with 100 views, 5 likes and 3 comments. -/
def statsDemoItem : VItem :=
  ⟨some "v1", some "t", some "d", some "ch", some "2024", some 100, some 5, some 3⟩

/-- Demo details oracle that echoes only requested ids: it answers the
`"v1"` item exactly when `"v1"` is among the requested ids. -/
def echoApi : Nat → List String → List VItem := fun _ c =>
  if "v1" ∈ c then [statsDemoItem] else []

/-- Demo details oracle answering `statsDemoItem` for any chunk: the
response covers only `"v1"`, so any other requested id is absent. -/
def statsDemoApi : Nat → List String → List VItem := fun _ _ => [statsDemoItem]

/-! ## Helper lemmas: order-preserving deduplication (`dict.fromkeys`) -/

theorem mem_dedupFirstAux {l : List String} :
    ∀ {seen x}, x ∈ dedupFirstAux seen l ↔ x ∈ l ∧ x ∉ seen := by
  induction l with
  | nil => intro seen x; simp [dedupFirstAux]
  | cons y ys ih =>
    intro seen x
    simp only [dedupFirstAux]
    by_cases hy : y ∈ seen
    · rw [if_pos hy, ih]
      constructor
      · rintro ⟨h1, h2⟩
        exact ⟨List.mem_cons_of_mem _ h1, h2⟩
      · rintro ⟨h1, h2⟩
        rcases List.mem_cons.mp h1 with rfl | h1
        · exact absurd hy h2
        · exact ⟨h1, h2⟩
    · rw [if_neg hy]
      constructor
      · intro hx
        rcases List.mem_cons.mp hx with rfl | hx
        · exact ⟨List.mem_cons_self _ _, hy⟩
        · rcases ih.mp hx with ⟨h1, h2⟩
          refine ⟨List.mem_cons_of_mem _ h1, fun hs => h2 ?_⟩
          exact List.mem_append_left _ hs
      · rintro ⟨h1, h2⟩
        rcases List.mem_cons.mp h1 with rfl | h1
        · exact List.mem_cons_self _ _
        · by_cases hxy : x = y
          · exact hxy ▸ List.mem_cons_self _ _
          · refine List.mem_cons_of_mem _ (ih.mpr ⟨h1, ?_⟩)
            intro hs
            rcases List.mem_append.mp hs with hs | hs
            · exact h2 hs
            · exact hxy (List.mem_singleton.mp hs)

theorem nodup_dedupFirstAux (l : List String) :
    ∀ seen, (dedupFirstAux seen l).Nodup := by
  induction l with
  | nil => intro seen; simp [dedupFirstAux]
  | cons y ys ih =>
    intro seen
    simp only [dedupFirstAux]
    by_cases hy : y ∈ seen
    · rw [if_pos hy]; exact ih seen
    · rw [if_neg hy]
      refine List.nodup_cons.mpr ⟨?_, ih _⟩
      intro hmem
      exact (mem_dedupFirstAux.mp hmem).2 (List.mem_append_right _ (by simp))

theorem sublist_dedupFirstAux (l : List String) :
    ∀ seen, (dedupFirstAux seen l).Sublist l := by
  induction l with
  | nil => intro seen; simp [dedupFirstAux]
  | cons y ys ih =>
    intro seen
    simp only [dedupFirstAux]
    by_cases hy : y ∈ seen
    · rw [if_pos hy]; exact List.Sublist.cons y (ih seen)
    · rw [if_neg hy]; exact List.Sublist.cons₂ y (ih _)

theorem pairwise_indexOf_dedupFirstAux (l : List String) :
    ∀ seen, (dedupFirstAux seen l).Pairwise
      (fun a b => l.indexOf a < l.indexOf b) := by
  induction l with
  | nil => intro seen; simp [dedupFirstAux]
  | cons y ys ih =>
    intro seen
    simp only [dedupFirstAux]
    by_cases hy : y ∈ seen
    · rw [if_pos hy]
      refine List.Pairwise.imp_of_mem ?_ (ih seen)
      intro a b ha hb hab
      have hya : y ≠ a := by
        rintro rfl
        exact (mem_dedupFirstAux.mp ha).2 hy
      have hyb : y ≠ b := by
        rintro rfl
        exact (mem_dedupFirstAux.mp hb).2 hy
      rw [List.indexOf_cons_ne _ hya, List.indexOf_cons_ne _ hyb]
      exact Nat.succ_lt_succ hab
    · rw [if_neg hy]
      refine List.pairwise_cons.mpr ⟨?_, ?_⟩
      · intro b hb
        have hyb : y ≠ b := by
          rintro rfl
          exact (mem_dedupFirstAux.mp hb).2 (List.mem_append_right _ (by simp))
        rw [List.indexOf_cons_self, List.indexOf_cons_ne _ hyb]
        exact Nat.succ_pos _
      · refine List.Pairwise.imp_of_mem ?_ (ih (seen ++ [y]))
        intro a b ha hb hab
        have hya : y ≠ a := by
          rintro rfl
          exact (mem_dedupFirstAux.mp ha).2 (List.mem_append_right _ (by simp))
        have hyb : y ≠ b := by
          rintro rfl
          exact (mem_dedupFirstAux.mp hb).2 (List.mem_append_right _ (by simp))
        rw [List.indexOf_cons_ne _ hya, List.indexOf_cons_ne _ hyb]
        exact Nat.succ_lt_succ hab

theorem mem_dedupFirst {l : List String} {x : String} :
    x ∈ dedupFirst l ↔ x ∈ l := by
  rw [dedupFirst, mem_dedupFirstAux]
  simp

theorem nodup_dedupFirst (l : List String) : (dedupFirst l).Nodup :=
  nodup_dedupFirstAux l []

theorem sublist_dedupFirst (l : List String) : (dedupFirst l).Sublist l :=
  sublist_dedupFirstAux l []

theorem pairwise_indexOf_dedupFirst (l : List String) :
    (dedupFirst l).Pairwise (fun a b => l.indexOf a < l.indexOf b) :=
  pairwise_indexOf_dedupFirstAux l []

/-! ## Helper lemmas: the pagination loop of `youtube_search` -/

theorem searchLoop_length_le (apiKey : String)
    (api : Nat → SearchReq → SearchPage) (kw pa pb rc : String)
    (maxResults : Nat)
    (hhon : ∀ j req, ((api j req).items).length ≤ req.maxResults) :
    ∀ (n k fetched : Nat) (tok : Option String) (ids : List String),
      maxResults - fetched ≤ n → fetched ≤ maxResults →
      ∀ out k',
        searchLoop apiKey api kw pa pb rc maxResults k fetched tok ids =
          (Except.ok out, k') →
        out.length + fetched ≤ ids.length + maxResults := by
  intro n
  induction n with
  | zero =>
    intro k fetched tok ids hn hfm out k' heq
    have hnot : ¬ fetched < maxResults := by omega
    rw [searchLoop, dif_neg hnot] at heq
    simp only [Prod.mk.injEq, Except.ok.injEq] at heq
    obtain ⟨rfl, rfl⟩ := heq
    omega
  | succ n ih =>
    intro k fetched tok ids hn hfm out k' heq
    by_cases h : fetched < maxResults
    · rw [searchLoop, dif_pos h] at heq
      by_cases hk : apiKey = ""
      · rw [if_pos hk] at heq
        simp at heq
      · rw [if_neg hk] at heq
        dsimp only at heq
        have hpage := hhon k (mkSearchReq kw pa pb rc
          (min 50 (maxResults - fetched)) tok)
        have hfm' : (mkSearchReq kw pa pb rc (min 50 (maxResults - fetched))
            tok).maxResults = min 50 (maxResults - fetched) := rfl
        rw [hfm'] at hpage
        have hvids := List.length_filterMap_le extractVid
          ((api k (mkSearchReq kw pa pb rc (min 50 (maxResults - fetched))
            tok)).items)
        split at heq
        · simp only [Prod.mk.injEq, Except.ok.injEq] at heq
          obtain ⟨rfl, rfl⟩ := heq
          rw [List.length_append]
          omega
        · have := ih (k + 1)
            (fetched + ((api k (mkSearchReq kw pa pb rc
              (min 50 (maxResults - fetched)) tok)).items).length)
            ((api k (mkSearchReq kw pa pb rc
              (min 50 (maxResults - fetched)) tok)).nextPageToken)
            (ids ++ ((api k (mkSearchReq kw pa pb rc
              (min 50 (maxResults - fetched)) tok)).items).filterMap
              extractVid)
            (by omega) (by omega) out k' heq
          rw [List.length_append] at this
          omega
    · rw [searchLoop, dif_neg h] at heq
      simp only [Prod.mk.injEq, Except.ok.injEq] at heq
      obtain ⟨rfl, rfl⟩ := heq
      omega

theorem searchLoop_reqs_le (apiKey : String)
    (api : Nat → SearchReq → SearchPage) (kw pa pb rc : String)
    (maxResults : Nat)
    (hfull : ∀ j req, strTruthy (api j req).nextPageToken = true →
      ((api j req).items).length = req.maxResults) :
    ∀ (n k fetched : Nat) (tok : Option String) (ids : List String),
      maxResults - fetched ≤ n →
      (searchLoop apiKey api kw pa pb rc maxResults k fetched tok ids).2 ≤
        k + (maxResults - fetched + 49) / 50 := by
  intro n
  induction n with
  | zero =>
    intro k fetched tok ids hn
    have hnot : ¬ fetched < maxResults := by omega
    rw [searchLoop, dif_neg hnot]
    omega
  | succ n ih =>
    intro k fetched tok ids hn
    by_cases h : fetched < maxResults
    · rw [searchLoop, dif_pos h]
      by_cases hk : apiKey = ""
      · rw [if_pos hk]
        exact Nat.le_add_right k _
      · rw [if_neg hk]
        dsimp only
        split
        · show k + 1 ≤ k + (maxResults - fetched + 49) / 50
          omega
        · rename_i h2
          simp only [not_or, Bool.not_eq_false] at h2
          have hlen := hfull k (mkSearchReq kw pa pb rc
            (min 50 (maxResults - fetched)) tok) h2.1
          have hfm' : (mkSearchReq kw pa pb rc
              (min 50 (maxResults - fetched)) tok).maxResults =
              min 50 (maxResults - fetched) := rfl
          rw [hfm'] at hlen
          rw [hlen]
          have := ih (k + 1)
            (fetched + min 50 (maxResults - fetched))
            ((api k (mkSearchReq kw pa pb rc
              (min 50 (maxResults - fetched)) tok)).nextPageToken)
            (ids ++ ((api k (mkSearchReq kw pa pb rc
              (min 50 (maxResults - fetched)) tok)).items).filterMap
              extractVid)
            (by omega)
          omega
    · rw [searchLoop, dif_neg h]
      omega

theorem searchLoop_stop (apiKey : String)
    (api : Nat → SearchReq → SearchPage) (kw pa pb rc : String)
    (maxResults j : Nat)
    (hterm : ∀ req, strTruthy (api j req).nextPageToken = false ∨
      ((api j req).items).length = 0) :
    ∀ (n k fetched : Nat) (tok : Option String) (ids : List String),
      maxResults - fetched ≤ n → k ≤ j →
      (searchLoop apiKey api kw pa pb rc maxResults k fetched tok ids).2 ≤
        j + 1 := by
  intro n
  induction n with
  | zero =>
    intro k fetched tok ids hn hkj
    have hnot : ¬ fetched < maxResults := by omega
    rw [searchLoop, dif_neg hnot]
    omega
  | succ n ih =>
    intro k fetched tok ids hn hkj
    by_cases h : fetched < maxResults
    · rw [searchLoop, dif_pos h]
      by_cases hk : apiKey = ""
      · rw [if_pos hk]
        omega
      · rw [if_neg hk]
        dsimp only
        split
        · simp
          omega
        · rename_i h2
          by_cases hkj' : k = j
          · subst hkj'
            exact absurd (hterm (mkSearchReq kw pa pb rc
              (min 50 (maxResults - fetched)) tok)) h2
          · exact ih (k + 1) _ _ _ (by omega) (by omega)
    · rw [searchLoop, dif_neg h]
      omega

theorem searchLoop_keyEmpty (api : Nat → SearchReq → SearchPage)
    (kw pa pb rc : String) (maxResults k fetched : Nat) (tok : Option String)
    (ids : List String) (h : fetched < maxResults) :
    searchLoop "" api kw pa pb rc maxResults k fetched tok ids =
      (Except.error ConfigError.missingKey, k) := by
  rw [searchLoop, dif_pos h, if_pos rfl]

theorem youtube_search_snd (apiKey : String)
    (api : Nat → SearchReq → SearchPage) (kw pa pb rc : String)
    (maxResults : Nat) :
    (youtube_search apiKey api kw pa pb rc maxResults).2 =
      (searchLoop apiKey api kw pa pb rc maxResults 0 0 none []).2 := by
  rw [youtube_search]
  rcases hsl : searchLoop apiKey api kw pa pb rc maxResults 0 0 none [] with
    ⟨res, k⟩
  cases res <;> simp

/-! ## Helper lemmas: chunking and the details loop -/

theorem chunk50_flatten (l : List String) : (chunk50 l).flatten = l := by
  induction l using chunk50.induct with
  | case1 => rw [chunk50]; rfl
  | case2 x xs ih =>
    rw [chunk50, List.flatten_cons, ih, List.take_append_drop]

theorem chunk50_length (l : List String) :
    (chunk50 l).length = (l.length + 49) / 50 := by
  induction l using chunk50.induct with
  | case1 => rw [chunk50]; rfl
  | case2 x xs ih =>
    rw [chunk50, List.length_cons, ih, List.length_drop, List.length_cons]
    omega

theorem chunk50_mem {l c : List String} (hc : c ∈ chunk50 l) :
    c.length ≤ 50 ∧ c ≠ [] := by
  induction l using chunk50.induct with
  | case1 => rw [chunk50] at hc; cases hc
  | case2 x xs ih =>
    rw [chunk50] at hc
    rcases List.mem_cons.mp hc with rfl | hc
    · refine ⟨List.length_take_le 50 _, ?_⟩
      simp [List.take_eq_nil_iff]
    · exact ih hc

theorem chunk50_subset {l c : List String} (hc : c ∈ chunk50 l) :
    ∀ x ∈ c, x ∈ l := by
  intro x hx
  rw [← chunk50_flatten l]
  exact List.mem_flatten.mpr ⟨c, hc, hx⟩

theorem chunk50_ne_nil {l : List String} (hl : l ≠ []) :
    ∃ c rest, chunk50 l = c :: rest := by
  cases l with
  | nil => exact absurd rfl hl
  | cons x xs => rw [chunk50]; exact ⟨_, _, rfl⟩

theorem statsLoop_ok (apiKey : String) (api : Nat → List String → List VItem)
    (hkey : apiKey ≠ "") :
    ∀ (chunks : List (List String)) (j : Nat) (acc : List Row),
      ∃ rows,
        statsLoop apiKey api chunks j acc =
          (Except.ok rows, j + chunks.length) ∧
        ∀ r ∈ rows, r ∈ acc ∨
          ∃ j' c, c ∈ chunks ∧ ∃ it ∈ api j' c, r = buildRow it := by
  intro chunks
  induction chunks with
  | nil =>
    intro j acc
    exact ⟨acc, by rw [statsLoop]; rfl, fun r hr => Or.inl hr⟩
  | cons c rest ih =>
    intro j acc
    obtain ⟨rows, heq, hprov⟩ := ih (j + 1) (acc ++ (api j c).map buildRow)
    refine ⟨rows, ?_, ?_⟩
    · rw [statsLoop, if_neg hkey, heq, List.length_cons]
      congr 1
      omega
    · intro r hr
      rcases hprov r hr with hacc | ⟨j', c', hc', it, hit, rfl⟩
      · rcases List.mem_append.mp hacc with h1 | h2
        · exact Or.inl h1
        · obtain ⟨it, hit, rfl⟩ := List.mem_map.mp h2
          exact Or.inr ⟨j, c, List.mem_cons_self _ _, it, hit, rfl⟩
      · exact Or.inr ⟨j', c', List.mem_cons_of_mem _ hc', it, hit, rfl⟩

/-! ## Helper lemmas: tokenizer -/

theorem findallTokens_spec :
    ∀ (cs acc : List Char), ∀ t ∈ findallTokens cs acc, ∀ ch ∈ t.toList,
      (tokenChar ch = true ∨ ch ∈ acc) ∧ (ch ∈ cs ∨ ch ∈ acc) := by
  intro cs
  induction cs with
  | nil =>
    intro acc t ht ch hch
    rw [findallTokens] at ht
    split at ht
    · cases ht
    · rcases List.mem_singleton.mp ht with rfl
      have : ch ∈ acc.reverse := hch
      exact ⟨Or.inr (List.mem_reverse.mp this),
        Or.inr (List.mem_reverse.mp this)⟩
  | cons c cs' ih =>
    intro acc t ht ch hch
    rw [findallTokens] at ht
    split at ht
    · rename_i htc
      obtain ⟨h1, h2⟩ := ih (c :: acc) t ht ch hch
      constructor
      · rcases h1 with h1 | h1
        · exact Or.inl h1
        · rcases List.mem_cons.mp h1 with rfl | h1
          · exact Or.inl htc
          · exact Or.inr h1
      · rcases h2 with h2 | h2
        · exact Or.inl (List.mem_cons_of_mem _ h2)
        · rcases List.mem_cons.mp h2 with rfl | h2
          · exact Or.inl (List.mem_cons_self _ _)
          · exact Or.inr h2
    · split at ht
      · obtain ⟨h1, h2⟩ := ih [] t ht ch hch
        constructor
        · rcases h1 with h1 | h1
          · exact Or.inl h1
          · cases h1
        · rcases h2 with h2 | h2
          · exact Or.inl (List.mem_cons_of_mem _ h2)
          · cases h2
      · rcases List.mem_cons.mp ht with rfl | ht
        · have : ch ∈ acc.reverse := hch
          exact ⟨Or.inr (List.mem_reverse.mp this),
            Or.inr (List.mem_reverse.mp this)⟩
        · obtain ⟨h1, h2⟩ := ih [] t ht ch hch
          constructor
          · rcases h1 with h1 | h1
            · exact Or.inl h1
            · cases h1
          · rcases h2 with h2 | h2
            · exact Or.inl (List.mem_cons_of_mem _ h2)
            · cases h2

/-! ## Helper lemmas: `Counter.most_common` (stable descending sort) -/

theorem mostCommonLE_trans (a b c : String × Nat) :
    mostCommonLE a b = true → mostCommonLE b c = true →
    mostCommonLE a c = true := by
  simp only [mostCommonLE, decide_eq_true_eq]
  omega

theorem mostCommonLE_total (a b : String × Nat) :
    (mostCommonLE a b || mostCommonLE b a) = true := by
  simp only [mostCommonLE, Bool.or_eq_true, decide_eq_true_eq]
  omega

theorem sublist_pair_of_mem {α : Type} {a b : α} {l : List α}
    (ha : a ∈ l) (hb : b ∈ l) (hne : a ≠ b) :
    [a, b].Sublist l ∨ [b, a].Sublist l := by
  induction l with
  | nil => cases ha
  | cons x xs ih =>
    rcases List.mem_cons.mp ha with rfl | ha'
    · have hb' : b ∈ xs := by
        rcases List.mem_cons.mp hb with h | h
        · exact absurd h.symm hne
        · exact h
      exact Or.inl (List.Sublist.cons₂ a (List.singleton_sublist.mpr hb'))
    · rcases List.mem_cons.mp hb with rfl | hb'
      · exact Or.inr (List.Sublist.cons₂ b (List.singleton_sublist.mpr ha'))
      · rcases ih ha' hb' with h | h
        · exact Or.inl (List.Sublist.cons x h)
        · exact Or.inr (List.Sublist.cons x h)

theorem not_pair_sublist_swap {α : Type} {a b : α} :
    ∀ {l : List α}, l.Nodup → [a, b].Sublist l → [b, a].Sublist l →
      False := by
  intro l
  induction l with
  | nil =>
    intro _ h1 _
    cases h1
  | cons x xs ih =>
    intro hn h1 h2
    have hx : x ∉ xs := (List.nodup_cons.mp hn).1
    have hn' : xs.Nodup := (List.nodup_cons.mp hn).2
    cases h1 with
    | cons _ h1' =>
      cases h2 with
      | cons _ h2' => exact ih hn' h1' h2'
      | cons₂ _ h2' => exact hx (h1'.subset (by simp))
    | cons₂ _ h1' =>
      cases h2 with
      | cons _ h2' => exact hx (h2'.subset (by simp))
      | cons₂ _ h2' => exact hx (h2'.subset (by simp))

theorem mostCommon_pairs_nodup (corpus : List String) :
    ((dedupFirst corpus).map (fun k => (k, corpus.count k))).Nodup := by
  refine List.Nodup.map ?_ (nodup_dedupFirst corpus)
  intro a b h
  simpa using congrArg Prod.fst h

theorem mostCommon_pairs_pairwise (corpus : List String) :
    ((dedupFirst corpus).map (fun k => (k, corpus.count k))).Pairwise
      (fun p q => corpus.indexOf p.1 < corpus.indexOf q.1) := by
  exact List.pairwise_map.mpr (pairwise_indexOf_dedupFirst corpus)

theorem mostCommon_sorted (corpus : List String) :
    (((dedupFirst corpus).map
        (fun k => (k, corpus.count k))).mergeSort mostCommonLE).Pairwise
      (fun p q => q.2 ≤ p.2) := by
  refine List.Pairwise.imp ?_
    (List.sorted_mergeSort mostCommonLE_trans mostCommonLE_total _)
  intro p q h
  simpa [mostCommonLE] using h

theorem mostCommon_stable (corpus : List String) :
    (((dedupFirst corpus).map
        (fun k => (k, corpus.count k))).mergeSort mostCommonLE).Pairwise
      (fun p q => p.2 = q.2 →
        corpus.indexOf p.1 < corpus.indexOf q.1) := by
  rw [List.pairwise_iff_forall_sublist]
  intro p q hpq heq
  have hnd : (((dedupFirst corpus).map
      (fun k => (k, corpus.count k))).mergeSort mostCommonLE).Nodup :=
    ((List.mergeSort_perm _ mostCommonLE).nodup_iff).mpr
      (mostCommon_pairs_nodup corpus)
  have hne : p ≠ q := by
    rintro rfl
    have := hpq.nodup hnd
    simp at this
  have hp : p ∈ (dedupFirst corpus).map (fun k => (k, corpus.count k)) :=
    List.mem_mergeSort.mp (hpq.subset (by simp))
  have hq : q ∈ (dedupFirst corpus).map (fun k => (k, corpus.count k)) :=
    List.mem_mergeSort.mp (hpq.subset (by simp))
  rcases sublist_pair_of_mem hp hq hne with h | h
  · exact List.pairwise_iff_forall_sublist.mp
      (mostCommon_pairs_pairwise corpus) h
  · have hle : mostCommonLE q p = true := by
      simp [mostCommonLE, heq]
    have hsw := List.pair_sublist_mergeSort mostCommonLE_trans
      mostCommonLE_total hle h
    exact (not_pair_sublist_swap hnd hpq hsw).elim

/-! ## Claim theorems -/

/-- C1: for every keyword, time window, region and positive limit, against
any search-endpoint responses that honour the requested page size, the id
sequence returned by `youtube_search` is the first-occurrence-order
deduplication of the ids collected over the pages as fetched: it contains
each id exactly once (`Nodup`, same members), preserves that order
(a sublist, pairwise increasing first-occurrence index), and has length at
most the limit. -/
theorem C1_search_unique_ordered_bounded (apiKey : String)
    (api : Nat → SearchReq → SearchPage) (kw pa pb rc : String)
    (limit : Nat) (hkey : apiKey ≠ "") (hpos : 0 < limit)
    (hhon : ∀ j req, ((api j req).items).length ≤ req.maxResults) :
    ∀ out k',
      youtube_search apiKey api kw pa pb rc limit = (Except.ok out, k') →
      ∃ raw,
        searchLoop apiKey api kw pa pb rc limit 0 0 none [] =
          (Except.ok raw, k') ∧
        out = dedupFirst raw ∧
        out.Nodup ∧
        (∀ x, x ∈ out ↔ x ∈ raw) ∧
        out.Sublist raw ∧
        out.Pairwise (fun a b => raw.indexOf a < raw.indexOf b) ∧
        out.length ≤ limit := by
  intro out k' heq
  rcases hsl : searchLoop apiKey api kw pa pb rc limit 0 0 none [] with
    ⟨res, k2⟩
  cases res with
  | error e =>
    rw [youtube_search, hsl] at heq
    simp at heq
  | ok raw =>
    rw [youtube_search, hsl] at heq
    simp only [Prod.mk.injEq, Except.ok.injEq] at heq
    obtain ⟨rfl, rfl⟩ := heq
    have hlen := searchLoop_length_le apiKey api kw pa pb rc limit hhon
      limit 0 0 none [] (by omega) (by omega) raw k2 hsl
    simp only [List.length_nil, Nat.add_zero, Nat.zero_add] at hlen
    refine ⟨raw, rfl, rfl, nodup_dedupFirst raw, fun x => mem_dedupFirst,
      sublist_dedupFirst raw, pairwise_indexOf_dedupFirst raw, ?_⟩
    exact Nat.le_trans (sublist_dedupFirst raw).length_le hlen

/-- Witness for C1: key `"k"`, limit 5, an oracle answering the single page
`["a", "b", "a"]`; the returned sequence is deduplicated and within the
limit. -/
theorem C1_search_unique_ordered_bounded_witness :
    (dedupFirst ["a", "b", "a"]).Nodup ∧
    (dedupFirst ["a", "b", "a"]).length ≤ 5 := by
  have happ := C1_search_unique_ordered_bounded "k" threeItemApi
    "q" "pa" "pb" "" 5 (by decide) (by decide)
    (by
      intro j req
      simp only [threeItemApi]
      split
      · simp
      · simp
        omega)
    (dedupFirst ["a", "b", "a"]) 1
    (by
      rw [youtube_search]
      simp [searchLoop, threeItemApi, mkSearchReq, strTruthy, extractVid])
  obtain ⟨raw, hraw, hout, hnd, hmem, hsub, hpw, hlen⟩ := happ
  exact ⟨hnd, hlen⟩

theorem round3_intCast (n : ℤ) : round3 (n : ℚ) = (n : ℚ) := by
  have h : ((n : ℚ) * 1000) = ((n * 1000 : ℤ) : ℚ) := by push_cast; ring
  rw [round3, roundHalfEven, h, Int.floor_intCast, sub_self]
  norm_num

/-- C2: every row produced by `youtube_videos_stats` carries
`ER = round3((like + comment) / view * 100)` when `view > 0` and `ER = 0`
when `view = 0` whatever the like/comment counts; in particular
view 100, like 5, comment 3 gives `ER = 8`. -/
theorem C2_engagement_rate (apiKey : String)
    (api : Nat → List String → List VItem) (ids : List String)
    (rows : List RowER)
    (heq : (youtube_videos_stats apiKey api ids).1 = Except.ok rows) :
    ∀ r ∈ rows,
      (r.viewCount = 0 → r.er = 0) ∧
      (0 < r.viewCount → r.er =
        round3 (((r.likeCount : ℚ) + (r.commentCount : ℚ)) /
          (r.viewCount : ℚ) * 100)) ∧
      (r.viewCount = 100 → r.likeCount = 5 → r.commentCount = 3 →
        r.er = 8) := by
  intro r hr
  have hmap : ∃ r0 : Row, r = addER r0 := by
    rcases hsl : statsLoop apiKey api (chunk50 ids) 0 [] with ⟨res, j⟩
    cases res with
    | error e =>
      rw [youtube_videos_stats, hsl] at heq
      simp at heq
    | ok rows0 =>
      rw [youtube_videos_stats, hsl] at heq
      simp only [Except.ok.injEq] at heq
      subst heq
      obtain ⟨r0, -, rfl⟩ := List.mem_map.mp hr
      exact ⟨r0, rfl⟩
  obtain ⟨r0, rfl⟩ := hmap
  have hview : (addER r0).viewCount = r0.viewCount := rfl
  have hlike : (addER r0).likeCount = r0.likeCount := rfl
  have hcom : (addER r0).commentCount = r0.commentCount := rfl
  have her : (addER r0).er = round3 (if 0 < r0.viewCount then
      ((r0.likeCount : ℚ) + (r0.commentCount : ℚ)) / (r0.viewCount : ℚ) * 100
      else 0) := rfl
  rw [hview, hlike, hcom, her]
  refine ⟨?_, ?_, ?_⟩
  · intro hv
    rw [hv, if_neg (by omega)]
    simpa using round3_intCast 0
  · intro hv
    rw [if_pos hv]
  · intro hv hl hc
    rw [hv, hl, hc, if_pos (by norm_num)]
    norm_num
    simpa using round3_intCast 8

/-- Witness for C2 at a concrete run: one item with 100 views, 5 likes,
3 comments; the produced row has `ER = 8`. -/
theorem C2_engagement_rate_witness :
    (addER (buildRow statsDemoItem)).er = 8 := by
  have happ := C2_engagement_rate "k" statsDemoApi ["v1"]
    [addER (buildRow statsDemoItem)]
    (by simp [youtube_videos_stats, chunk50, statsLoop, statsDemoApi])
  exact (happ (addER (buildRow statsDemoItem)) (by simp)).2.2 rfl rfl rfl

/-- C3 (amended): when every page response that carries a continuation
token contains exactly the requested number of items, `youtube_search`
issues at most `ceil(limit/50)` page requests; and over every response
sequence whatsoever, it stops immediately once a request index answers
with no (truthy) continuation token or zero items. -/
theorem C3_pagination_requests (apiKey : String)
    (api : Nat → SearchReq → SearchPage) (kw pa pb rc : String)
    (limit : Nat) :
    ((∀ j req, strTruthy (api j req).nextPageToken = true →
        ((api j req).items).length = req.maxResults) →
      (youtube_search apiKey api kw pa pb rc limit).2 ≤ (limit + 49) / 50) ∧
    ∀ j, (∀ req, strTruthy (api j req).nextPageToken = false ∨
        ((api j req).items).length = 0) →
      (youtube_search apiKey api kw pa pb rc limit).2 ≤ j + 1 := by
  constructor
  · intro hfull
    rw [youtube_search_snd]
    have := searchLoop_reqs_le apiKey api kw pa pb rc limit hfull
      limit 0 0 none [] (by omega)
    simpa using this
  · intro j hterm
    rw [youtube_search_snd]
    exact searchLoop_stop apiKey api kw pa pb rc limit j hterm
      limit 0 0 none [] (by omega) (by omega)

/-- Counterexample to C3 as stated: with limit 2 and an endpoint whose
pages each hold one item and a continuation token (a partial page, which
the claim's universal quantification over response sequences allows), the
collector issues 2 requests, exceeding `ceil(2/50) = 1`. -/
theorem C3_pagination_requests_counterexample :
    (youtube_search "k" onePerPageApi "q" "pa" "pb" "" 2).2 = 2 ∧
    (2 + 49) / 50 < 2 := by
  constructor
  · rw [youtube_search_snd]
    simp [searchLoop, onePerPageApi, mkSearchReq, strTruthy, extractVid]
  · decide

/-- Witness for C3 (amended) at the all-pages-terminal oracle. -/
theorem C3_pagination_requests_witness :
    (youtube_search "k" emptyPageApi "q" "pa" "pb" "" 80).2 ≤
      (80 + 49) / 50 ∧
    (youtube_search "k" emptyPageApi "q" "pa" "pb" "" 80).2 ≤ 0 + 1 := by
  have happ := C3_pagination_requests "k" emptyPageApi "q" "pa" "pb" "" 80
  exact ⟨happ.1 (by intro j req h; simp [emptyPageApi, strTruthy] at h),
    happ.2 0 (by intro req; simp [emptyPageApi, strTruthy])⟩

/-- C4: every token produced by `tokenize` survives the stopword and
minimum-length filters and consists only of `TOKEN_PATTERN` characters
taken from the lower-cased input; and the example input
`"Hello 세계! 123 vlog test"` tokenizes to `["hello", "세계", "test"]`. -/
theorem C4_tokenize_filters :
    (∀ s : String, ∀ t ∈ tokenize s,
      t ∉ DEFAULT_STOPWORDS ∧ 2 ≤ t.length ∧
      ∀ ch ∈ t.toList, tokenChar ch = true ∧ ch ∈ (strLower s).toList) ∧
    tokenize "Hello 세계! 123 vlog test" = ["hello", "세계", "test"] := by
  constructor
  · intro s t ht
    rw [tokenize] at ht
    obtain ⟨htf, hpred⟩ := List.mem_filter.mp ht
    simp only [Bool.and_eq_true, decide_eq_true_eq] at hpred
    refine ⟨hpred.1, hpred.2, ?_⟩
    intro ch hch
    obtain ⟨h1, h2⟩ := findallTokens_spec (strLower s).toList [] t htf ch hch
    constructor
    · rcases h1 with h1 | h1
      · exact h1
      · cases h1
    · rcases h2 with h2 | h2
      · exact h2
      · cases h2
  · decide

/-- Witness for C4 at the token `"hello"` of the example input. -/
theorem C4_tokenize_filters_witness :
    "hello" ∉ DEFAULT_STOPWORDS ∧ 2 ≤ "hello".length ∧
    ∀ ch ∈ "hello".toList, tokenChar ch = true ∧
      ch ∈ (strLower "Hello 세계! 123 vlog test").toList := by
  exact C4_tokenize_filters.1 "Hello 세계! 123 vlog test" "hello" (by decide)

/-- C5: `keywords_from_df` returns at most `topn` (token, count) pairs;
counts are the global corpus counts; pairs are sorted by count descending,
and any tie keeps the order of first appearance in the corpus scan; the
counts `{aa: 3, bb: 3, cc: 1}` with `aa` appearing first come out as
`[aa, bb, cc]`. -/
theorem C5_keywords_ranking (rows : List TextRow) (topn : Nat) :
    (keywords_from_df rows topn).length ≤ topn ∧
    (keywords_from_df rows topn).Pairwise (fun p q => q.2 ≤ p.2) ∧
    (keywords_from_df rows topn).Pairwise (fun p q => p.2 = q.2 →
      (corpusOf rows).indexOf p.1 < (corpusOf rows).indexOf q.1) ∧
    (∀ p ∈ keywords_from_df rows topn,
      p.1 ∈ corpusOf rows ∧ p.2 = (corpusOf rows).count p.1) ∧
    keywords_from_df [⟨"aa bb aa bb", "aa bb cc"⟩] 10 =
      [("aa", 3), ("bb", 3), ("cc", 1)] := by
  refine ⟨?_, ?_, ?_, ?_, ?_⟩
  · rw [keywords_from_df, mostCommon]
    exact List.length_take_le _ _
  · rw [keywords_from_df, mostCommon]
    exact List.Pairwise.sublist (List.take_sublist _ _)
      (mostCommon_sorted (corpusOf rows))
  · rw [keywords_from_df, mostCommon]
    exact List.Pairwise.sublist (List.take_sublist _ _)
      (mostCommon_stable (corpusOf rows))
  · intro p hp
    rw [keywords_from_df, mostCommon] at hp
    have hp2 := (List.take_sublist _ _).subset hp
    obtain ⟨k, hk, rfl⟩ := List.mem_map.mp (List.mem_mergeSort.mp hp2)
    exact ⟨mem_dedupFirst.mp hk, rfl⟩
  · have hcor : corpusOf [⟨"aa bb aa bb", "aa bb cc"⟩] =
        ["aa", "bb", "aa", "bb", "aa", "bb", "cc"] := by decide
    have hpairs : (dedupFirst ["aa", "bb", "aa", "bb", "aa", "bb", "cc"]).map
        (fun k => (k,
          (["aa", "bb", "aa", "bb", "aa", "bb", "cc"] : List String).count
            k)) = [("aa", 3), ("bb", 3), ("cc", 1)] := by decide
    rw [keywords_from_df, hcor, mostCommon, hpairs,
      List.mergeSort_of_sorted (by decide)]
    rfl

/-- Witness for C5: the pair `("aa", 3)` of the example run carries the
corpus count of its token. -/
theorem C5_keywords_ranking_witness :
    ("aa", 3).1 ∈ corpusOf [⟨"aa bb aa bb", "aa bb cc"⟩] ∧
    ("aa", 3).2 =
      (corpusOf [⟨"aa bb aa bb", "aa bb cc"⟩]).count ("aa", 3).1 := by
  have hconc := (C5_keywords_ranking [⟨"aa bb aa bb", "aa bb cc"⟩] 10).2.2.2.2
  exact (C5_keywords_ranking [⟨"aa bb aa bb", "aa bb cc"⟩] 10).2.2.2.1
    ("aa", 3) (by rw [hconc]; simp)

/-- C6: `youtube_videos_stats` issues exactly `ceil(len(ids)/50)` detail
requests (`(len + 49) / 50` over `Nat`, which is 0 for empty `ids`), each
chunk covers at most 50 ids, the chunks concatenate back to `ids` in input
order, and empty `ids` yields zero requests and an empty result. -/
theorem C6_chunked_requests (apiKey : String)
    (api : Nat → List String → List VItem) (ids : List String)
    (hkey : apiKey ≠ "") :
    (youtube_videos_stats apiKey api ids).2 = (ids.length + 49) / 50 ∧
    (∀ c ∈ chunk50 ids, c.length ≤ 50) ∧
    (chunk50 ids).flatten = ids ∧
    (ids = [] → youtube_videos_stats apiKey api ids = (Except.ok [], 0)) := by
  obtain ⟨rows, heq, -⟩ := statsLoop_ok apiKey api hkey (chunk50 ids) 0 []
  refine ⟨?_, fun c hc => (chunk50_mem hc).1, chunk50_flatten ids, ?_⟩
  · rw [youtube_videos_stats, heq]
    simp [chunk50_length]
  · rintro rfl
    simp [youtube_videos_stats, chunk50, statsLoop]

/-- Witness for C6: one id yields exactly one detail request. -/
theorem C6_chunked_requests_witness :
    (youtube_videos_stats "k" statsDemoApi ["v1"]).2 =
      ((["v1"] : List String).length + 49) / 50 :=
  (C6_chunked_requests "k" statsDemoApi ["v1"] (by decide)).1

/-- C7 (amended): provided every details response item carries an id that
was among the ids requested in its chunk (the endpoint echoes requested
ids), the aggregator succeeds and every id in its output rows comes from
the input sequence; ids absent from the responses are simply not among the
output rows (no error). -/
theorem C7_output_ids_from_input (apiKey : String)
    (api : Nat → List String → List VItem) (ids : List String)
    (hkey : apiKey ≠ "")
    (hecho : ∀ j c, ∀ it ∈ api j c, ∀ v, it.id = some v → v ∈ c) :
    ∃ rows, (youtube_videos_stats apiKey api ids).1 = Except.ok rows ∧
      ∀ r ∈ rows, ∀ v, r.videoId = some v → v ∈ ids := by
  obtain ⟨rows0, heq, hprov⟩ := statsLoop_ok apiKey api hkey (chunk50 ids) 0 []
  refine ⟨rows0.map addER, ?_, ?_⟩
  · rw [youtube_videos_stats, heq]
  · intro r hr v hv
    obtain ⟨r0, hr0, rfl⟩ := List.mem_map.mp hr
    rcases hprov r0 hr0 with h | ⟨j', c, hc, it, hit, rfl⟩
    · cases h
    · have hid : it.id = some v := hv
      exact chunk50_subset hc v (hecho j' c it hit v hid)

/-- Counterexample to C7 as stated: for arbitrary details responses the
aggregator takes each output id from the response (`it.get("id")`), not
from its input, so a response item with the foreign id `"zz"` puts `"zz"`
into the output although only `"v1"` was requested. -/
theorem C7_output_ids_from_input_counterexample :
    outputIds (youtube_videos_stats "k" foreignIdApi ["v1"]).1 = ["zz"] ∧
    "zz" ∉ (["v1"] : List String) := by
  constructor
  · simp [youtube_videos_stats, chunk50, statsLoop, outputIds, foreignIdApi,
      addER, buildRow]
  · decide

/-- Witness for C7 (amended): requesting `["v1", "v2"]` against the echoing
oracle that only knows `"v1"` succeeds, and the output id is in the input. -/
theorem C7_output_ids_from_input_witness :
    "v1" ∈ (["v1", "v2"] : List String) := by
  obtain ⟨rows, heq, hin⟩ := C7_output_ids_from_input "k" echoApi
    ["v1", "v2"] (by decide)
    (by
      intro j c it hit v hv
      by_cases h : "v1" ∈ c
      · simp only [echoApi, if_pos h] at hit
        rw [List.mem_singleton.mp hit] at hv
        have : v = "v1" := by
          simpa [statsDemoItem] using hv.symm
        rw [this]
        exact h
      · simp [echoApi, if_neg h] at hit)
  have heval : (youtube_videos_stats "k" echoApi ["v1", "v2"]).1 =
      Except.ok [addER (buildRow statsDemoItem)] := by
    simp [youtube_videos_stats, chunk50, statsLoop, echoApi]
  rw [heval] at heq
  simp only [Except.ok.injEq] at heq
  subst heq
  exact hin (addER (buildRow statsDemoItem)) (by simp) "v1" rfl

/-- C8 (amended): with an empty API key, the collector (for positive limit)
and the aggregator (for nonempty ids) both fail with the missing-credential
configuration error before any request is issued (request count 0); with
limit 0 or empty ids the loop body never runs, so no check happens and an
empty success is returned. -/
theorem C8_missing_key_fails_before_requests
    (api : Nat → SearchReq → SearchPage)
    (dapi : Nat → List String → List VItem) (kw pa pb rc : String)
    (limit : Nat) (ids : List String) :
    (0 < limit → youtube_search "" api kw pa pb rc limit =
      (Except.error ConfigError.missingKey, 0)) ∧
    (ids ≠ [] → youtube_videos_stats "" dapi ids =
      (Except.error ConfigError.missingKey, 0)) := by
  constructor
  · intro hpos
    rw [youtube_search,
      searchLoop_keyEmpty api kw pa pb rc limit 0 0 none [] hpos]
  · intro hne
    obtain ⟨c, rest, hchunk⟩ := chunk50_ne_nil hne
    rw [youtube_videos_stats, hchunk, statsLoop, if_pos rfl]

/-- Counterexample to C8 as stated: with an empty key and an empty id list
the aggregator does not fail at all — it returns an empty success without
any credential check, because the chunk loop body never runs. -/
theorem C8_missing_key_counterexample :
    youtube_videos_stats "" (fun _ _ => []) [] = (Except.ok [], 0) := by
  simp [youtube_videos_stats, chunk50, statsLoop]

/-- Witness for C8 (amended) at limit 1 and one id. -/
theorem C8_missing_key_witness :
    youtube_search "" emptyPageApi "q" "pa" "pb" "" 1 =
      (Except.error ConfigError.missingKey, 0) ∧
    youtube_videos_stats "" statsDemoApi ["v1"] =
      (Except.error ConfigError.missingKey, 0) := by
  have happ := C8_missing_key_fails_before_requests emptyPageApi
    statsDemoApi "q" "pa" "pb" "" 1 ["v1"]
  exact ⟨happ.1 (by decide), happ.2 (by decide)⟩

/-- C9: the aggregator's output rows are exactly per-item extractions of
the details responses — each row is `addER (buildRow item)` for a response
item — and `buildRow` takes title, description, channel name and publish
timestamp from the snippet fields (defaulting to `""`) and the numeric
view/like/comment counts from the statistics fields, defaulting each
missing count to 0 instead of failing. -/
theorem C9_field_extraction_defaults (apiKey : String)
    (api : Nat → List String → List VItem) (ids : List String)
    (hkey : apiKey ≠ "") :
    (∃ rows, (youtube_videos_stats apiKey api ids).1 = Except.ok rows ∧
      ∀ r ∈ rows, ∃ j c it, it ∈ api j c ∧ r = addER (buildRow it)) ∧
    ∀ it : VItem,
      (buildRow it).title = it.title.getD "" ∧
      (buildRow it).description = it.description.getD "" ∧
      (buildRow it).channelTitle = it.channelTitle.getD "" ∧
      (buildRow it).publishedAt = it.publishedAt.getD "" ∧
      (it.viewCount = none → (buildRow it).viewCount = 0) ∧
      (it.likeCount = none → (buildRow it).likeCount = 0) ∧
      (it.commentCount = none → (buildRow it).commentCount = 0) := by
  constructor
  · obtain ⟨rows0, heq, hprov⟩ :=
      statsLoop_ok apiKey api hkey (chunk50 ids) 0 []
    refine ⟨rows0.map addER, by rw [youtube_videos_stats, heq], ?_⟩
    intro r hr
    obtain ⟨r0, hr0, rfl⟩ := List.mem_map.mp hr
    rcases hprov r0 hr0 with h | ⟨j', c, hc, it, hit, rfl⟩
    · cases h
    · exact ⟨j', c, it, hit, rfl⟩
  · intro it
    refine ⟨rfl, rfl, rfl, rfl, ?_, ?_, ?_⟩
    · intro h; simp [buildRow, h]
    · intro h; simp [buildRow, h]
    · intro h; simp [buildRow, h]

/-- Witness for C9: an item with every statistics field absent produces
counts 0, not an error. -/
theorem C9_field_extraction_defaults_witness :
    (buildRow ⟨some "x", none, none, none, none, none, none, none⟩).viewCount
      = 0 ∧
    (buildRow ⟨some "x", none, none, none, none, none, none, none⟩).likeCount
      = 0 ∧
    (buildRow
      ⟨some "x", none, none, none, none, none, none, none⟩).commentCount
      = 0 := by
  have happ := (C9_field_extraction_defaults "k" statsDemoApi [] (by decide)).2
    ⟨some "x", none, none, none, none, none, none, none⟩
  exact ⟨happ.2.2.2.2.1 rfl, happ.2.2.2.2.2.1 rfl, happ.2.2.2.2.2.2 rfl⟩

/-- C10 (implicit): `yt_get` copies the caller's parameter dictionary
(`final_params = dict(params)`) and writes the API key only into the copy,
so over the explicit object store the caller's dictionary is unchanged by
the call, the request is sent with the copy extended by `key`, and the
copy lives at a fresh reference. -/
theorem C10_params_dict_not_mutated (store : List Dict) (p : Nat)
    (apiKey : String) (hp : p < store.length) :
    ((yt_get_params store p apiKey).1).getD p [] = store.getD p [] ∧
    ((yt_get_params store p apiKey).1).getD
        ((yt_get_params store p apiKey).2) [] =
      dictSet (store.getD p []) "key" apiKey ∧
    (yt_get_params store p apiKey).2 ≠ p := by
  have hne : store.length ≠ p := by omega
  refine ⟨?_, ?_, ?_⟩
  · show (((store ++ [store.getD p []]).set store.length _)).getD p [] =
      store.getD p []
    rw [List.getD_eq_getElem?_getD, List.getElem?_set_ne hne,
      List.getElem?_append_left (by omega), ← List.getD_eq_getElem?_getD]
  · show (((store ++ [store.getD p []]).set store.length
      (dictSet ((store ++ [store.getD p []]).getD store.length [])
        "key" apiKey))).getD store.length [] = _
    rw [List.getD_eq_getElem?_getD,
      List.getElem?_set_self (by simp),
      List.getD_eq_getElem?_getD, List.getElem?_concat_length]
    rfl
  · exact fun h => hne h

/-- Witness for C10 at a one-dictionary store. -/
theorem C10_params_dict_not_mutated_witness :
    ((yt_get_params [[("q", "cats")]] 0 "KEY").1).getD 0 [] =
      [("q", "cats")] ∧
    ((yt_get_params [[("q", "cats")]] 0 "KEY").1).getD
        ((yt_get_params [[("q", "cats")]] 0 "KEY").2) [] =
      dictSet [("q", "cats")] "key" "KEY" := by
  have happ := C10_params_dict_not_mutated [[("q", "cats")]] 0 "KEY"
    (by decide)
  exact ⟨happ.1, happ.2.1⟩

end YtTrend
